import Mathlib

/-!
Formal model of the hono CLI build-time optimizer and module loader.

Shallow embedding of:
* the router-selection ladder of the `optimize` command
  (src/commands/optimize/index.ts, lines 36-72),
* the `hono-optimize` bundler plugin resolve/load hooks
  (src/commands/optimize/index.ts, lines 88-127),
* the watch-mode build-and-import async generator
  (src/utils/build.ts, `buildAndImportApp`),
* and, from the full current optimize command bundled with the sources (the
  version its tests exercise, with the target option and the API-removal
  categories): the request-body-removal eligibility check, the textual
  usage scan and the behavioral unused-member record, and the phase order
  in which the target string is used.
-/

namespace HonoCli

/-- HTTP method of a registered route: the fixed hono method enum plus the
wildcard `ALL` used by `app.all(...)`. -/
inductive Method where
  | GET | HEAD | OPTIONS | POST | PUT | PATCH | DELETE | ALL
  deriving DecidableEq, Repr

/-- One entry of the application route table, as `app.routes` exposes it:
a (method, path-pattern) pair, in registration order. -/
structure RouteEntry where
  method : Method
  path : String
  deriving DecidableEq, Repr

/-- The router wiring the optimize command settles on: the three variables
`routerName`, `importStatement`, `assignRouterStatement` assigned exactly
once in the try/catch ladder (optimize/index.ts lines 36-72). -/
structure RouterChoice where
  routerName : String
  importStatement : String
  assignRouterStatement : String
  deriving DecidableEq, Repr

/-- The wiring chosen when serialization succeeds and the probe finds
`PreparedRegExpRouter` (optimize/index.ts lines 57-61). -/
def preparedChoice (serialized : String) : RouterChoice :=
  ⟨"PreparedRegExpRouter",
   "import \x7b PreparedRegExpRouter \x7d from \x27hono/router/reg-exp-router\x27",
   "const routerParams = " ++ serialized ++
     "\n    this.router = new PreparedRegExpRouter(...routerParams)"⟩

/-- The wiring chosen when serialization succeeds but the probe does not find
the prepared-router symbol (optimize/index.ts lines 62-66). -/
def regExpChoice : RouterChoice :=
  ⟨"RegExpRouter",
   "import \x7b RegExpRouter \x7d from \x27hono/router/reg-exp-router\x27",
   "this.router = new RegExpRouter()"⟩

/-- The fallback wiring taken by the catch branch when serialization throws
(optimize/index.ts lines 67-72). -/
def trieChoice : RouterChoice :=
  ⟨"TrieRouter",
   "import \x7b TrieRouter \x7d from \x27hono/router/trie-router\x27",
   "this.router = new TrieRouter()"⟩

/-- Outcome of the isolated capability-probe subprocess (optimize/index.ts
lines 46-55): only the exit code is observed, and the flag is
`code === 0`; `none` models a process killed before exiting (a null code). -/
def hasPreparedRegExpRouter (probeExitCode : Option Int) : Bool :=
  probeExitCode == some 0

/-- The router-selection ladder of `optimizeCommand` (optimize/index.ts lines
39-72). `serializeRoutes` abstracts the external call
`serializeInitParams (buildInitParams ...)` from hono, applied to the
captured route paths; a thrown exception is its `Except.error` case, and
the surrounding try/catch is the match: any serialization failure lands in
the catch branch, which picks the trie wiring and raises nothing. The probe
subprocess runs after serialization inside the try and never throws. -/
def chooseRouter (serializeRoutes : List String → Except String String)
    (routes : List RouteEntry) (probeExitCode : Option Int) : RouterChoice :=
  match serializeRoutes (routes.map RouteEntry.path) with
  | Except.ok serialized =>
      if hasPreparedRegExpRouter probeExitCode then preparedChoice serialized
      else regExpChoice
  | Except.error _ => trieChoice

/-- C1: for every captured route list whose paths serialize successfully into
the precomputed-router format, the router choice is the prepared wiring
(with the serialized params spliced in) exactly when the capability-probe
subprocess exits successfully (code 0), and the runtime `RegExpRouter`
wiring when it exits unsuccessfully. -/
theorem router_choice_follows_probe
    (serializeRoutes : List String → Except String String)
    (routes : List RouteEntry) (params : String) (probeExitCode : Option Int)
    (h : serializeRoutes (routes.map RouteEntry.path) = Except.ok params) :
    (probeExitCode = some 0 →
      chooseRouter serializeRoutes routes probeExitCode = preparedChoice params) ∧
    (probeExitCode ≠ some 0 →
      chooseRouter serializeRoutes routes probeExitCode = regExpChoice) := by
  constructor
  · intro hc
    simp [chooseRouter, h, hasPreparedRegExpRouter, hc]
  · intro hc
    simp [chooseRouter, h, hasPreparedRegExpRouter, hc]

/-- Witness for C1: a single GET route at the root, a serializer that
succeeds, probe exit codes 0 and 1. -/
theorem router_choice_follows_probe_witness :
    chooseRouter (fun _ => Except.ok ("[[],[]]")) [⟨Method.GET, "/"⟩] (some 0)
        = preparedChoice ("[[],[]]") ∧
    chooseRouter (fun _ => Except.ok ("[[],[]]")) [⟨Method.GET, "/"⟩] (some 1)
        = regExpChoice :=
  ⟨(router_choice_follows_probe _ _ _ _ rfl).1 rfl,
   (router_choice_follows_probe _ _ _ _ rfl).2 (by decide)⟩

/-- C2: for every captured route list on which serialization throws, the
router choice is the trie wiring regardless of the probe outcome; the
failure is absorbed by the catch branch (the selection is a total function
into `RouterChoice`, never an error). -/
theorem serialize_failure_gives_trie
    (serializeRoutes : List String → Except String String)
    (routes : List RouteEntry) (e : String) (probeExitCode : Option Int)
    (h : serializeRoutes (routes.map RouteEntry.path) = Except.error e) :
    chooseRouter serializeRoutes routes probeExitCode = trieChoice := by
  simp [chooseRouter, h]

/-- Witness for C2: the unsupported nested-alternation capture pattern from
the test shipped in the repository, with the probe flag both present and absent. -/
theorem serialize_failure_gives_trie_witness :
    chooseRouter (fun _ => Except.error ("unsupported pattern"))
        [⟨Method.GET, "/foo/:capture\x7bba(r|z)\x7d"⟩] (some 0) = trieChoice ∧
    chooseRouter (fun _ => Except.error ("unsupported pattern"))
        [⟨Method.GET, "/foo/:capture\x7bba(r|z)\x7d"⟩] none = trieChoice :=
  ⟨serialize_failure_gives_trie _ _ _ _ rfl,
   serialize_failure_gives_trie _ _ _ _ rfl⟩

/-- C7: router choice is a deterministic function of the captured routes and
the framework-capability flag: identical route lists and an identical
probe outcome yield an identical `RouterChoice` (router name, import
statement and serialized params all equal). -/
theorem router_choice_deterministic
    (serializeRoutes : List String → Except String String)
    (routesA routesB : List RouteEntry) (codeA codeB : Option Int)
    (hroutes : routesA = routesB)
    (hflag : hasPreparedRegExpRouter codeA = hasPreparedRegExpRouter codeB) :
    chooseRouter serializeRoutes routesA codeA
      = chooseRouter serializeRoutes routesB codeB := by
  subst hroutes
  cases hres : serializeRoutes (routesA.map RouteEntry.path) with
  | ok s => simp [chooseRouter, hres, hflag]
  | error e => simp [chooseRouter, hres]

/-- Witness for C7: exit codes 1 and null give the same capability flag, so
the same choice. -/
theorem router_choice_deterministic_witness :
    chooseRouter (fun _ => Except.ok ("[[],[]]")) [⟨Method.GET, "/"⟩] (some 1)
      = chooseRouter (fun _ => Except.ok ("[[],[]]")) [⟨Method.GET, "/"⟩] none :=
  router_choice_deterministic _ _ _ _ _ rfl (by decide)

/-- The marker filename the optimizer redirects `hono` imports to
(optimize/index.ts line 92). -/
def honoPseudoImportPath : String := "hono-optimized-pseudo-import-path"

/-- The arguments esbuild passes to an onResolve callback, as the plugin
reads them: the import specifier, the importing file (empty string models a
missing importer, which is falsy in the `!args.importer` test in the source) and
the resolve directory. -/
structure OnResolveArgs where
  path : String
  importer : String
  resolveDir : String
  deriving DecidableEq, Repr

/-- The onResolve filter `/^hono$/` (optimize/index.ts line 94): it matches
exactly the specifier `hono`. -/
def onResolveFilter (p : String) : Bool :=
  p == "hono"

/-- The onLoad filter built from the marker (optimize/index.ts line 111), the
regex of paths ending in `/hono-optimized-pseudo-import-path`. -/
def onLoadFilterHit (p : String) : Bool :=
  ("/" ++ honoPseudoImportPath).data.isSuffixOf p.data

/-- node `path.join(d, f)` for the shape the plugin uses: a directory
joined with the slash-free marker filename. -/
def nodeJoin (d f : String) : String :=
  if d = "" then f else d ++ "/" ++ f

/-- The body of the onResolve hook of the `hono-optimize` plugin (optimize/index.ts
lines 94-110). The resolution the bundler itself performs for the import is abstracted:
`resolvedDirname` stands for `dirname(resolved.path)`, the directory of the
real hono entry file. `none` models returning `undefined` (the resolution is
left untouched); `some p` models returning `\x7b path: p \x7d`. -/
def onResolveHono (resolvedDirname : String) (args : OnResolveArgs) : Option String :=
  if args.importer = "" then none
  else some (nodeJoin resolvedDirname honoPseudoImportPath)

/-- C6: the resolve hook redirects a `hono` import to the synthetic target
only when the import has a declared importer; an importer-less resolution is
left untouched. The redirected path never matches the `/^hono$/` resolve
filter again (so resolution cannot recurse into the output of the hook itself), and
the load filter of the virtual module does not match the bare specifier the hook
replaces. -/
theorem resolve_hook_importer_guard (resolvedDirname : String)
    (args : OnResolveArgs) (hfilter : onResolveFilter args.path = true) :
    (args.importer = "" → onResolveHono resolvedDirname args = none) ∧
    (args.importer ≠ "" →
      onResolveHono resolvedDirname args
        = some (nodeJoin resolvedDirname honoPseudoImportPath)) ∧
    onResolveFilter (nodeJoin resolvedDirname honoPseudoImportPath) = false ∧
    onLoadFilterHit ("hono") = false := by
  refine ⟨fun h => by simp [onResolveHono, h], fun h => by simp [onResolveHono, h], ?_, by decide⟩
  unfold onResolveFilter nodeJoin
  by_cases hd : resolvedDirname = ""
  · simp [hd, honoPseudoImportPath]
  · simp only [if_neg hd, beq_eq_false_iff_ne, ne_eq]
    intro hcontra
    have hlen := congrArg String.length hcontra
    simp only [String.length_append] at hlen
    have h1 : ("/" : String).length = 1 := rfl
    have h2 : honoPseudoImportPath.length = 33 := rfl
    have h3 : ("hono" : String).length = 4 := rfl
    omega

/-- Witness for C6: resolving `hono` from an application file, with the
real hono package directory as the resolved location. -/
theorem resolve_hook_importer_guard_witness :
    (("/proj/src/index.ts" : String) = "" →
      onResolveHono ("/proj/node_modules/hono/dist")
        ⟨"hono", "/proj/src/index.ts", "/proj/src"⟩ = none) ∧
    (("/proj/src/index.ts" : String) ≠ "" →
      onResolveHono ("/proj/node_modules/hono/dist")
        ⟨"hono", "/proj/src/index.ts", "/proj/src"⟩
        = some (nodeJoin ("/proj/node_modules/hono/dist") honoPseudoImportPath)) ∧
    onResolveFilter (nodeJoin ("/proj/node_modules/hono/dist") honoPseudoImportPath) = false ∧
    onLoadFilterHit ("hono") = false :=
  resolve_hook_importer_guard ("/proj/node_modules/hono/dist")
    ⟨"hono", "/proj/src/index.ts", "/proj/src"⟩ rfl

/-- The default export of the bundled module, as the onEnd handler inspects
it (build.ts lines 54-64): whether `typeof app.request === \x27function\x27`
holds, and the route table it carries. A missing/falsy export is modelled by
`Option` at the import site, so a `JsApp` value is never null. -/
structure JsApp where
  requestIsFunction : Bool
  routes : List RouteEntry
  deriving DecidableEq, Repr

/-- Result of `await import(dataUrl)` on the bundled code (build.ts lines
49-55): the import itself may throw (`failed`, e.g. the rebuild produced no
output and the empty module is malformed), or it loads and exposes an
optional default export. -/
inductive ImportOutcome where
  | failed (err : String)
  | loaded (defaultExport : Option JsApp)
  deriving DecidableEq, Repr

/-- The effect one run of the onEnd handler has on the pending item.
`resolveItem` is the `resolveApp(app)` call; `logError` is the catch branch
`console.error(\x27Error building app\x27, error)`, which leaves the item
untouched. `rejectItem` is expressible for a promise but — as the theorems
show — never produced by the handler: `preparePromise` captures only the
resolver (build.ts lines 22-27). -/
inductive OnEndEffect where
  | resolveItem (app : JsApp)
  | rejectItem (err : String)
  | logError (msg : String)
  deriving DecidableEq, Repr

/-- Whether the effect rejects the pending item. -/
def OnEndEffect.isReject : OnEndEffect → Bool
  | .rejectItem _ => true
  | _ => false

/-- Whether the effect resolves the pending item. -/
def OnEndEffect.isResolve : OnEndEffect → Bool
  | .resolveItem _ => true
  | _ => false

/-- The body of the onEnd handler of the watch plugin (build.ts lines 46-74): a
failed import or a missing default export throws inside the try, a non-null
export whose `request` member is not a function throws inside the try, and
every throw is caught and logged; only a validated app reaches
`resolveApp`. -/
def onEnd : ImportOutcome → OnEndEffect
  | .failed e => .logError ("Error building app " ++ e)
  | .loaded none => .logError ("Error building app " ++ "Failed to build app")
  | .loaded (some app) =>
      if app.requestIsFunction then .resolveItem app
      else .logError ("Error building app " ++ "No valid Hono app exported from the file")

/-- State of the watch-mode generator loop (build.ts lines 86-89):
`pending` is the resolution state of the current `appPromise` (`none` =
still unresolved), and `yielded` is true while the generator is suspended at
`yield` with an item handed to the consumer but `next()` not yet called. -/
structure GenState where
  pending : Option JsApp
  yielded : Bool
  deriving DecidableEq, Repr

/-- The initial generator state: `preparePromise()` has produced a fresh
unresolved promise and the loop is about to await it. -/
def watchInit : GenState := ⟨none, false⟩

/-- Observable events of one watch session: a (re)build completing (its
onEnd handler runs on the import outcome), the generator await completing
and yielding an app to the consumer, and the consumer taking the item by
calling `next()` (which runs `preparePromise()` again). -/
inductive GenEvent where
  | rebuild (result : ImportOutcome)
  | deliver (app : JsApp)
  | take
  deriving DecidableEq, Repr

/-- Small-step semantics of the watch loop. `rebuildResolve`: a successful
onEnd resolves a still-unresolved promise. `rebuildDrop`: a successful onEnd
while the promise is already settled is a no-op — `resolveApp` still points
at the resolver of the settled promise, so the fresh app is dropped, not
buffered. `rebuildLog`: a failing onEnd only logs. `deliverItem`: the
generator await completes with the settled value and the generator
suspends at `yield`. `takeItem`: the consumer call to `next()` resumes the loop,
which runs `preparePromise()` and awaits afresh. -/
inductive GenStep : GenState → GenEvent → GenState → Prop where
  | rebuildResolve {s : GenState} {i : ImportOutcome} {a : JsApp} :
      onEnd i = .resolveItem a → s.pending = none →
      GenStep s (.rebuild i) ⟨some a, s.yielded⟩
  | rebuildDrop {s : GenState} {i : ImportOutcome} {a b : JsApp} :
      onEnd i = .resolveItem a → s.pending = some b →
      GenStep s (.rebuild i) s
  | rebuildLog {s : GenState} {i : ImportOutcome} {msg : String} :
      onEnd i = .logError msg →
      GenStep s (.rebuild i) s
  | deliverItem {s : GenState} {a : JsApp} :
      s.yielded = false → s.pending = some a →
      GenStep s (.deliver a) ⟨s.pending, true⟩
  | takeItem {s : GenState} :
      s.yielded = true →
      GenStep s .take watchInit

/-- Multi-step reachability over a list of events. -/
inductive Reaches : GenState → List GenEvent → GenState → Prop where
  | nil {s : GenState} : Reaches s [] s
  | cons {s s' s'' : GenState} {e : GenEvent} {es : List GenEvent} :
      GenStep s e s' → Reaches s' es s'' → Reaches s (e :: es) s''

/-- Counts 1 for a rebuild event whose onEnd run reached `resolveApp` (a
successful rebuild producing a valid app). -/
def GenEvent.successBit : GenEvent → Nat
  | .rebuild i => match onEnd i with | .resolveItem _ => 1 | _ => 0
  | _ => 0

/-- Counts 1 for a deliver event. -/
def GenEvent.deliverBit : GenEvent → Nat
  | .deliver _ => 1
  | _ => 0

/-- Counts 1 for a take event. -/
def GenEvent.takeBit : GenEvent → Nat
  | .take => 1
  | _ => 0

/-- Number of successful rebuilds in a trace. -/
def successfulRebuildCount : List GenEvent → Nat
  | [] => 0
  | e :: es => e.successBit + successfulRebuildCount es

/-- Number of items yielded to the consumer in a trace. -/
def deliverCount : List GenEvent → Nat
  | [] => 0
  | e :: es => e.deliverBit + deliverCount es

/-- Number of consumer takes in a trace. -/
def takeCount : List GenEvent → Nat
  | [] => 0
  | e :: es => e.takeBit + takeCount es

/-- The apps actually yielded to the consumer, in order. -/
def deliveredApps : List GenEvent → List JsApp
  | [] => []
  | .deliver a :: es => a :: deliveredApps es
  | _ :: es => deliveredApps es

/-- 1 when the promise is settled but its value not yet yielded. -/
def pendingFreshBit (s : GenState) : Nat :=
  if s.pending.isSome && !s.yielded then 1 else 0

/-- 1 while the generator is suspended at `yield`. -/
def yieldedBit (s : GenState) : Nat :=
  if s.yielded then 1 else 0

/-- States the watch loop can actually be in: an un-taken yielded item is
still recorded in the settled promise, and anything the promise was resolved
with passed the validation in the handler. -/
def StateInv (s : GenState) : Prop :=
  (s.yielded = true → s.pending.isSome = true) ∧
  (∀ a, s.pending = some a → a.requestIsFunction = true)

/-- onEnd resolves only with the validated default export of the module itself. -/
theorem onEnd_resolveItem {i : ImportOutcome} {a : JsApp}
    (h : onEnd i = .resolveItem a) :
    i = .loaded (some a) ∧ a.requestIsFunction = true := by
  cases i with
  | failed e => exact absurd h (by simp [onEnd])
  | loaded d =>
    cases d with
    | none => exact absurd h (by simp [onEnd])
    | some app =>
      simp only [onEnd] at h
      split at h
      · cases h
        exact ⟨rfl, by assumption⟩
      · cases h

/-- One step preserves the state invariant and respects the counting laws:
a delivery consumes a fresh settled item, and delivers and takes alternate
through the `yielded` flag. -/
theorem genStep_inv {s : GenState} {e : GenEvent} {s' : GenState}
    (h : GenStep s e s') (inv : StateInv s) :
    StateInv s' ∧
    e.deliverBit + pendingFreshBit s' ≤ e.successBit + pendingFreshBit s ∧
    e.deliverBit + yieldedBit s = e.takeBit + yieldedBit s' ∧
    (∀ a, e = .deliver a → a.requestIsFunction = true) := by
  obtain ⟨invY, invV⟩ := inv
  cases h with
  | rebuildResolve hre hp =>
    refine ⟨⟨fun _ => rfl, ?_⟩, ?_, ?_, ?_⟩
    · intro a' ha'
      cases ha'
      exact (onEnd_resolveItem hre).2
    · simp only [GenEvent.deliverBit, GenEvent.successBit, hre,
        pendingFreshBit, hp]
      cases hy : s.yielded <;> simp
    · simp [GenEvent.deliverBit, GenEvent.takeBit, yieldedBit]
    · intro a' ha'
      cases ha'
  | rebuildDrop hre hp =>
    refine ⟨⟨invY, invV⟩, ?_, ?_, ?_⟩
    · simp only [GenEvent.deliverBit, GenEvent.successBit, hre]
      omega
    · simp [GenEvent.deliverBit, GenEvent.takeBit]
    · intro a' ha'
      cases ha'
  | rebuildLog hre =>
    refine ⟨⟨invY, invV⟩, ?_, ?_, ?_⟩
    · simp [GenEvent.deliverBit, GenEvent.successBit, hre]
    · simp [GenEvent.deliverBit, GenEvent.takeBit]
    · intro a' ha'
      cases ha'
  | deliverItem hy hp =>
    refine ⟨⟨fun _ => by simp [hp], fun a' ha' => invV a' ha'⟩, ?_, ?_, ?_⟩
    · simp [GenEvent.deliverBit, GenEvent.successBit, pendingFreshBit, hp, hy]
    · simp [GenEvent.deliverBit, GenEvent.takeBit, yieldedBit, hy]
    · intro a' ha'
      cases ha'
      exact invV _ hp
  | takeItem hy =>
    refine ⟨⟨by simp [watchInit], by simp [watchInit]⟩, ?_, ?_, ?_⟩
    · have := invY hy
      simp [GenEvent.deliverBit, GenEvent.takeBit, pendingFreshBit, watchInit, hy, this]
    · simp [GenEvent.deliverBit, GenEvent.takeBit, yieldedBit, watchInit, hy]
    · intro a' ha'
      cases ha'

/-- Trace-level invariant: from any invariant state, delivered items are
bounded by successful rebuilds (plus an initially fresh item), delivers and
takes alternate through the `yielded` flag, and every delivered app was
validated. -/
theorem reaches_inv {s₀ : GenState} {tr : List GenEvent} {s : GenState}
    (h : Reaches s₀ tr s) (inv : StateInv s₀) :
    StateInv s ∧
    deliverCount tr + pendingFreshBit s
      ≤ successfulRebuildCount tr + pendingFreshBit s₀ ∧
    deliverCount tr + yieldedBit s₀ = takeCount tr + yieldedBit s ∧
    (∀ a, a ∈ deliveredApps tr → a.requestIsFunction = true) := by
  induction h with
  | nil =>
    exact ⟨inv, le_refl _, rfl, by simp [deliveredApps]⟩
  | cons hstep hrest ih =>
    obtain ⟨inv₁, st1, st2, st3⟩ := genStep_inv hstep inv
    obtain ⟨invS, i1, i2, i3⟩ := ih inv₁
    refine ⟨invS, ?_, ?_, ?_⟩
    · simp only [deliverCount, successfulRebuildCount]
      omega
    · simp only [deliverCount, takeCount]
      omega
    · intro a ha
      rename_i e es
      cases e with
      | rebuild i =>
        exact i3 a (by simpa [deliveredApps] using ha)
      | take =>
        exact i3 a (by simpa [deliveredApps] using ha)
      | deliver b =>
        simp only [deliveredApps, List.mem_cons] at ha
        rcases ha with rfl | ha
        · exact st3 a rfl
        · exact i3 a ha

/-- The initial state satisfies the invariant. -/
theorem watchInit_inv : StateInv watchInit :=
  ⟨fun h => by simp [watchInit] at h, fun a h => by simp [watchInit] at h⟩

/-- C3 (amended): in watch mode the sequence is single-item-in-flight — at
most one new app is yielded per successful rebuild (a rebuild completing
while an item is still pending is dropped, not buffered), and the producer
suspends after each item until the consumer has taken it, so the number of
yielded items never exceeds the number of takes plus one. -/
theorem watch_at_most_one_in_flight {tr : List GenEvent} {s : GenState}
    (h : Reaches watchInit tr s) :
    deliverCount tr ≤ successfulRebuildCount tr ∧
    deliverCount tr ≤ takeCount tr + 1 := by
  obtain ⟨_, h1, h2, _⟩ := reaches_inv h watchInit_inv
  have hb0 : pendingFreshBit watchInit = 0 := rfl
  have hb1 : yieldedBit watchInit = 0 := rfl
  have hb2 : yieldedBit s ≤ 1 := by
    unfold yieldedBit
    cases s.yielded <;> simp
  omega

/-- Witness for C3 (amended): one successful rebuild, one delivery, one
take. -/
theorem watch_at_most_one_in_flight_witness :
    deliverCount [GenEvent.rebuild (ImportOutcome.loaded (some ⟨true, [⟨Method.GET, "/"⟩]⟩)),
        GenEvent.deliver ⟨true, [⟨Method.GET, "/"⟩]⟩, GenEvent.take]
      ≤ successfulRebuildCount [GenEvent.rebuild (ImportOutcome.loaded (some ⟨true, [⟨Method.GET, "/"⟩]⟩)),
        GenEvent.deliver ⟨true, [⟨Method.GET, "/"⟩]⟩, GenEvent.take] ∧
    deliverCount [GenEvent.rebuild (ImportOutcome.loaded (some ⟨true, [⟨Method.GET, "/"⟩]⟩)),
        GenEvent.deliver ⟨true, [⟨Method.GET, "/"⟩]⟩, GenEvent.take]
      ≤ takeCount [GenEvent.rebuild (ImportOutcome.loaded (some ⟨true, [⟨Method.GET, "/"⟩]⟩)),
        GenEvent.deliver ⟨true, [⟨Method.GET, "/"⟩]⟩, GenEvent.take] + 1 :=
  watch_at_most_one_in_flight
    (Reaches.cons (GenStep.rebuildResolve rfl rfl)
      (Reaches.cons (GenStep.deliverItem rfl rfl)
        (Reaches.cons (GenStep.takeItem rfl) Reaches.nil)))

/-- A valid app delivered in the counterexample trace. -/
def appA : JsApp := ⟨true, [⟨Method.GET, "/a"⟩]⟩

/-- A valid app whose rebuild is dropped in the counterexample trace. -/
def appB : JsApp := ⟨true, [⟨Method.GET, "/b"⟩]⟩

/-- Import outcome of the first successful rebuild. -/
def resultA : ImportOutcome := .loaded (some appA)

/-- Import outcome of the second successful rebuild. -/
def resultB : ImportOutcome := .loaded (some appB)

/-- A schedule in which a second rebuild completes before the consumer takes
the first item. -/
def droppedRebuildTrace : List GenEvent :=
  [.rebuild resultA, .rebuild resultB, .deliver appA, .take]

/-- C3 counterexample: two successful rebuilds, but only one app is ever
yielded — the app from the second rebuild is dropped (the already-settled promise
ignores the second `resolveApp`), the delivered list is exactly `[appA]`,
and the trace ends in the quiescent initial state with nothing pending, so
`appB` can never be delivered later. This refutes "exactly one new
ApplicationHandle per successful rebuild" as stated. -/
theorem watch_exactly_once_cex :
    Reaches watchInit droppedRebuildTrace watchInit ∧
    successfulRebuildCount droppedRebuildTrace = 2 ∧
    deliverCount droppedRebuildTrace = 1 ∧
    deliveredApps droppedRebuildTrace = [appA] ∧
    appB ∉ deliveredApps droppedRebuildTrace := by
  refine ⟨?_, rfl, rfl, rfl, by decide⟩
  exact Reaches.cons (GenStep.rebuildResolve rfl rfl)
    (Reaches.cons (@GenStep.rebuildDrop _ _ appB _ rfl rfl)
      (Reaches.cons (GenStep.deliverItem rfl rfl)
        (Reaches.cons (GenStep.takeItem rfl) Reaches.nil)))

/-- C4 counterexample: a bundle whose default export is missing is logged by
the catch branch and the pending item is not rejected (nor is a
direct import failure): the handler produces a `logError` effect, never a
`rejectItem`. This refutes "rejects that item (the awaited handle)" as
stated. -/
theorem invalid_export_not_rejected_cex :
    onEnd (.loaded none) = .logError ("Error building app " ++ "Failed to build app") ∧
    (onEnd (.loaded none)).isReject = false ∧
    (onEnd (ImportOutcome.failed ("Build failed"))).isReject = false :=
  ⟨rfl, rfl, rfl⟩

/-- C4 (amended): a failed compile or a missing/invalid default export is
caught and logged — the pending item is neither resolved nor rejected and
the generator state is unchanged — and in watch mode the sequence keeps
waiting: a later successful rebuild still delivers its app. -/
theorem build_failure_logged_keeps_waiting {i : ImportOutcome} {msg : String}
    (h : onEnd i = .logError msg) {g : ImportOutcome} {a : JsApp}
    (hg : onEnd g = .resolveItem a) :
    (onEnd i).isReject = false ∧
    (onEnd i).isResolve = false ∧
    GenStep watchInit (.rebuild i) watchInit ∧
    Reaches watchInit [.rebuild i, .rebuild g, .deliver a] ⟨some a, true⟩ := by
  refine ⟨by rw [h]; rfl, by rw [h]; rfl, GenStep.rebuildLog h, ?_⟩
  exact Reaches.cons (GenStep.rebuildLog h)
    (Reaches.cons (GenStep.rebuildResolve hg rfl)
      (Reaches.cons (GenStep.deliverItem rfl rfl) Reaches.nil))

/-- Witness for C4 (amended): a missing default export, then a successful
rebuild of `appA`. -/
theorem build_failure_logged_keeps_waiting_witness :
    (onEnd (.loaded none)).isReject = false ∧
    (onEnd (.loaded none)).isResolve = false ∧
    GenStep watchInit (.rebuild (.loaded none)) watchInit ∧
    Reaches watchInit [.rebuild (.loaded none), .rebuild resultA, .deliver appA]
      ⟨some appA, true⟩ :=
  @build_failure_logged_keeps_waiting (ImportOutcome.loaded none)
    ("Error building app " ++ "Failed to build app") rfl resultA appA rfl

/-- C10: every value yielded by the watch sequence is a validated app — the
handler resolves only with the non-null default export of the module itself whose
`request` member is a function, and every app delivered along any reachable
trace passed that check; a bundle failing the check is never delivered. -/
theorem yielded_apps_are_validated {tr : List GenEvent} {s : GenState}
    (h : Reaches watchInit tr s) :
    (∀ i a, onEnd i = .resolveItem a →
      i = .loaded (some a) ∧ a.requestIsFunction = true) ∧
    (∀ a, a ∈ deliveredApps tr → a.requestIsFunction = true) := by
  refine ⟨fun i a hia => onEnd_resolveItem hia, ?_⟩
  obtain ⟨_, _, _, h4⟩ := reaches_inv h watchInit_inv
  exact h4

/-- Witness for C10: the dropped-rebuild schedule; its only delivered app
is validated. -/
theorem yielded_apps_are_validated_witness :
    (∀ i a, onEnd i = .resolveItem a →
      i = .loaded (some a) ∧ a.requestIsFunction = true) ∧
    (∀ a, a ∈ deliveredApps droppedRebuildTrace → a.requestIsFunction = true) :=
  yielded_apps_are_validated
    (Reaches.cons (GenStep.rebuildResolve rfl rfl)
      (Reaches.cons (@GenStep.rebuildDrop _ _ appB _ rfl rfl)
        (Reaches.cons (GenStep.deliverItem rfl rfl)
          (Reaches.cons (GenStep.takeItem rfl) Reaches.nil))))

/-- The method allowlist of the request-body-removal eligibility check in
the optimize action: the code tests
`[METHOD_NAME_ALL, GET, HEAD, OPTIONS].includes(method.toUpperCase())`,
and METHOD_NAME_ALL from hono/router is the wildcard ALL — so an ALL route
counts as body-less. -/
def requestBodyAllowedMethod : Method → Bool
  | .ALL | .GET | .HEAD | .OPTIONS => true
  | _ => false

/-- The removeRequestBodyApi flag of the optimize action: the
`--no-request-body-api-removal` toggle must not be disabled, and every
captured route method must be in the allowlist (`app.routes.every`). -/
def removeRequestBodyApi (requestBodyApiRemoval : Bool)
    (routes : List RouteEntry) : Bool :=
  requestBodyApiRemoval && routes.all (fun r => requestBodyAllowedMethod r.method)

/-- A method is in the allowlist exactly when it is ALL, GET, HEAD or
OPTIONS. -/
theorem requestBodyAllowedMethod_iff (m : Method) :
    requestBodyAllowedMethod m = true ↔
      (m = .ALL ∨ m = .GET ∨ m = .HEAD ∨ m = .OPTIONS) := by
  cases m <;> simp [requestBodyAllowedMethod]

/-- C5 counterexample: a route list consisting of one wildcard ALL route is
eligible for request-body removal — the code includes METHOD_NAME_ALL in
the body-less allowlist, the opposite of "treated conservatively as
requiring body support" — although ALL is none of GET, HEAD, OPTIONS. -/
theorem all_route_keeps_eligibility_cex :
    removeRequestBodyApi true [⟨Method.ALL, "/any"⟩] = true ∧
    ¬(Method.ALL = Method.GET ∨ Method.ALL = Method.HEAD ∨
        Method.ALL = Method.OPTIONS) := by
  decide

/-- C5 (amended): request-body removal eligibility is true exactly when the
toggle is enabled and every captured route uses a method in the allowlist
ALL, GET, HEAD, OPTIONS — a wildcard ALL entry counts as body-less and
preserves eligibility — while appending any POST/PUT/PATCH/DELETE route
flips eligibility to false, and disabling the toggle forces false. -/
theorem request_body_removal_eligibility_amended (routes : List RouteEntry)
    (r a : RouteEntry)
    (hr : r.method = .POST ∨ r.method = .PUT ∨ r.method = .PATCH ∨ r.method = .DELETE)
    (ha : a.method = .ALL) :
    (removeRequestBodyApi true routes = true ↔
      ∀ e ∈ routes,
        e.method = .ALL ∨ e.method = .GET ∨ e.method = .HEAD ∨ e.method = .OPTIONS) ∧
    removeRequestBodyApi true (routes ++ [r]) = false ∧
    (removeRequestBodyApi true routes = true →
      removeRequestBodyApi true (routes ++ [a]) = true) ∧
    removeRequestBodyApi false routes = false := by
  have hrb : requestBodyAllowedMethod r.method = false := by
    rcases hr with h | h | h | h <;> rw [h] <;> rfl
  have hab : requestBodyAllowedMethod a.method = true := by
    rw [ha]
    rfl
  refine ⟨?_, ?_, ?_, ?_⟩
  · simp only [removeRequestBodyApi, Bool.true_and, List.all_eq_true]
    constructor
    · intro h e he
      exact (requestBodyAllowedMethod_iff e.method).1 (h e he)
    · intro h e he
      exact (requestBodyAllowedMethod_iff e.method).2 (h e he)
  · simp [removeRequestBodyApi, hrb]
  · intro h
    simp only [removeRequestBodyApi, Bool.true_and, List.all_eq_true] at h ⊢
    intro e he
    rcases List.mem_append.1 he with he | he
    · exact h e he
    · simp only [List.mem_singleton] at he
      subst he
      exact hab
  · simp [removeRequestBodyApi]

/-- Witness for C5 (amended): a GET plus an ALL route stays eligible; a POST
route destroys eligibility; the disabled toggle forces false. -/
theorem request_body_removal_eligibility_amended_witness :
    (removeRequestBodyApi true [⟨Method.GET, "/"⟩, ⟨Method.ALL, "/any"⟩] = true ↔
      ∀ e ∈ [(⟨Method.GET, "/"⟩ : RouteEntry), ⟨Method.ALL, "/any"⟩],
        e.method = .ALL ∨ e.method = .GET ∨ e.method = .HEAD ∨ e.method = .OPTIONS) ∧
    removeRequestBodyApi true
      ([⟨Method.GET, "/"⟩, ⟨Method.ALL, "/any"⟩] ++ [⟨Method.POST, "/data"⟩]) = false ∧
    (removeRequestBodyApi true [⟨Method.GET, "/"⟩, ⟨Method.ALL, "/any"⟩] = true →
      removeRequestBodyApi true
        ([⟨Method.GET, "/"⟩, ⟨Method.ALL, "/any"⟩] ++ [⟨Method.ALL, "/x"⟩]) = true) ∧
    removeRequestBodyApi false [⟨Method.GET, "/"⟩, ⟨Method.ALL, "/any"⟩] = false :=
  request_body_removal_eligibility_amended _ ⟨Method.POST, "/data"⟩ ⟨Method.ALL, "/x"⟩
    (Or.inl rfl) rfl

/-- Whether `pat` occurs as a contiguous run inside `s` (plain substring
search over character lists). -/
def charsContain (pat : List Char) : List Char → Bool
  | [] => pat.isEmpty
  | c :: rest => pat.isPrefixOf (c :: rest) || charsContain pat rest

/-- The Hono-API members the optimize action removes on the behavioral
signal (HONO_REMOVAL_METHODS in the code): the synthetic probe base class
wraps each with a getter that deletes it from the unusedMethods record on
first access. -/
def HONO_REMOVAL_METHODS : List String :=
  ["route", "mount", "fire"]

/-- The context-response members the textual scan covers
(CONTEXT_RESPONSE_METHODS in the code). -/
def CONTEXT_RESPONSE_METHODS : List String :=
  ["body", "json", "text", "html", "redirect"]

/-- The textual usage scan of the optimize action: the regex
`(?<=\.)member(?=\()` over a loaded file matches exactly the occurrences of
the text `.member(`, syntax-insensitively, so an occurrence inside a string
literal or comment also counts. -/
def textualScanHit (member source : String) : Bool :=
  charsContain (("." ++ member ++ "(").data) source.data

/-- The unused context-response member set after the probe build (the
onLoad scan of the optimize action): it starts as CONTEXT_RESPONSE_METHODS
when the category toggle is enabled (else empty), and every member whose
`.member(` text occurs in some loaded non-framework source file is deleted
from it; the members remaining are excised from the packaged Context
class. -/
def unusedContextResponseMethods (contextResponseApiRemoval : Bool)
    (sources : List String) : List String :=
  (if contextResponseApiRemoval then CONTEXT_RESPONSE_METHODS else []).filter
    (fun m => !(sources.any (fun s => textualScanHit m s)))

/-- Whether the optimize action removes the Hono-API member `m` from
hono-base.js (removeHonoApi and removeApis in the code): the toggle must be
enabled and the behavioral unusedMethods record — the HONO_REMOVAL_METHODS
never accessed during the probe run — must be nonempty and contain `m`. The
textual scan is not consulted for these members. -/
def honoApiMemberRemoved (honoApiRemoval : Bool) (unusedMethods : List String)
    (m : String) : Bool :=
  honoApiRemoval && !unusedMethods.isEmpty && unusedMethods.contains m

/-- C8 counterexample: `fire` is in the removable catalogue and the text
`.fire(` occurs in an application source (inside a string literal), yet
when the behavioral probe never accessed `fire` the member is removed
anyway — the textual scan covers only the context-response members, so the
catalogue-wide "textual occurrence retains the member" fails at `fire`. -/
theorem textual_fire_not_retained_cex :
    ("fire" ∈ HONO_REMOVAL_METHODS) ∧
    textualScanHit ("fire") ("const s = \"app.fire() later\"") = true ∧
    honoApiMemberRemoved true ["route", "mount", "fire"] ("fire") = true := by
  decide

/-- C8 (amended): for every member of the context-response scan list (body,
json, text, html, redirect), a textual `.member(` occurrence in any scanned
application source — even one only inside a string literal or comment —
marks the member used, so it is dropped from the unused set and retained in
the output, whatever the category toggle; the Hono-API members (route,
mount, fire) are instead governed solely by the behavioral probe record,
which such textual occurrences do not affect. -/
theorem context_textual_scan_retains (m src : String) (sources : List String)
    (flag : Bool) (hm : m ∈ CONTEXT_RESPONSE_METHODS) (hsrc : src ∈ sources)
    (hhit : textualScanHit m src = true) :
    m ∉ unusedContextResponseMethods flag sources := by
  intro hmem
  have hany : sources.any (fun s => textualScanHit m s) = true :=
    List.any_eq_true.2 ⟨src, hsrc, hhit⟩
  rw [unusedContextResponseMethods, List.mem_filter] at hmem
  rw [hany] at hmem
  exact absurd hmem.2 (by decide)

/-- Witness for C8 (amended): the member `json` occurring only inside a
string literal of the application source is dropped from the unused set, so
it is retained. -/
theorem context_textual_scan_retains_witness :
    ("json" : String) ∉ unusedContextResponseMethods true ["const s = \"call c.json() later\""] :=
  context_textual_scan_retains ("json") ("const s = \"call c.json() later\"")
    ["const s = \"call c.json() later\""] true
    (by decide) (by decide) (by decide)

/-- Build phases of one optimize invocation that involve build work, in
order. -/
inductive OptimizePhase where
  | probeBuild | routerProbe | finalBuild
  deriving DecidableEq, Repr

/-- The phase sequence of one optimize invocation as a function of the
target string, from the code: the CLI never inspects the `-t` value — the
probe build (buildAndImportApp) and the router capability probe always run
first, and the target is first used by the final `esbuild.build`, whose own
validation (abstracted as `acceptsTarget`) is the only check; a rejected
target aborts there, after the earlier phases. The result lists the phases
that ran. -/
def optimizeRunPhases (acceptsTarget : String → Bool) (target : String) :
    List OptimizePhase :=
  if acceptsTarget target then
    [.probeBuild, .routerProbe, .finalBuild]
  else
    [.probeBuild, .routerProbe]

/-- C9 counterexample: with the invalid target from the repository test
(`hoge`) and an external build that rejects it, the probe build and the
capability probe still run — build work starts before the invalid target
can fail anything, refuting "fails before any build work starts"; no CLI
whitelist exists, the failure comes from the final build alone. -/
theorem invalid_target_after_build_work_cex :
    optimizeRunPhases (fun t => !(t == "hoge")) ("hoge")
      = [OptimizePhase.probeBuild, OptimizePhase.routerProbe] ∧
    OptimizePhase.probeBuild ∈ optimizeRunPhases (fun t => !(t == "hoge")) ("hoge") ∧
    OptimizePhase.finalBuild ∉ optimizeRunPhases (fun t => !(t == "hoge")) ("hoge") := by
  decide

/-- C9 (amended): the optimize command does not validate the target itself:
the probe build and the capability probe run for every target string, and a
target the final build rejects fails the invocation only at the final
build, after that earlier build work has completed. -/
theorem invalid_target_fails_at_final_build (acceptsTarget : String → Bool)
    (t : String) (h : acceptsTarget t = false) :
    optimizeRunPhases acceptsTarget t
      = [OptimizePhase.probeBuild, OptimizePhase.routerProbe] ∧
    OptimizePhase.finalBuild ∉ optimizeRunPhases acceptsTarget t ∧
    (∀ u : String, OptimizePhase.probeBuild ∈ optimizeRunPhases acceptsTarget u ∧
      OptimizePhase.routerProbe ∈ optimizeRunPhases acceptsTarget u) := by
  refine ⟨by simp [optimizeRunPhases, h], by simp [optimizeRunPhases, h], ?_⟩
  intro u
  constructor <;> (rw [optimizeRunPhases]; split <;> simp)

/-- Witness for C9 (amended): a build rejecting `hoge`, applied at `hoge`. -/
theorem invalid_target_fails_at_final_build_witness :
    optimizeRunPhases (fun t => !(t == "hoge")) ("hoge")
      = [OptimizePhase.probeBuild, OptimizePhase.routerProbe] ∧
    OptimizePhase.finalBuild ∉ optimizeRunPhases (fun t => !(t == "hoge")) ("hoge") ∧
    (∀ u : String,
      OptimizePhase.probeBuild ∈ optimizeRunPhases (fun t => !(t == "hoge")) u ∧
      OptimizePhase.routerProbe ∈ optimizeRunPhases (fun t => !(t == "hoge")) u) :=
  invalid_target_fails_at_final_build _ ("hoge") (by decide)

end HonoCli
